import Mathlib

/-!
Verification of the tlbs-performance-tracker client against its specification.

The development shallowly embeds the TypeScript sources:
* `src/context/EntriesContext.tsx` — the entries store (list / add / update / delete),
* `src/pages/Calendar.tsx` — calendar day/month bucketing,
* the Dashboard page — 12-month aggregation, pie-chart bucketing, statistics,
* the Data page — row decoding,
* the SQL schema (entries table, row-level security, timestamps).

Conventions: JavaScript numbers are modelled as exact rationals, machine
strings as Lean strings, asynchronous backend calls as explicit result
values, and React state updates as pure functions from the previous state.
Date-only strings handed to the JavaScript Date constructor are modelled as
parsing to the calendar date they denote (a UTC runtime; the code performs
no timezone adjustment of its own).
-/

set_option maxHeartbeats 1000000
set_option linter.unusedVariables false

/-- The two tracked activity kinds (union type 'sales' | 'delivery'). -/
inductive EType where
  | sales
  | delivery
  deriving DecidableEq, Repr

/-- The fixed category enumeration 'Training' | 'Coaching' | 'Speaking'. -/
inductive Cat where
  | Training
  | Coaching
  | Speaking
  deriving DecidableEq, Repr

/-! ## The entries store (src/src/context/EntriesContext.tsx)

The store's `Entry` interface has backend-assigned fields `id`, `user_id`,
`created_at`, `updated_at` and user fields `date`, `title`, `content`.
Identifiers and timestamps are opaque to the client; we model them as `Nat`.
-/

/-- Argument of `addEntry`: an `Entry` without the backend-assigned fields
(`Omit<Entry, 'id' | 'user_id' | 'created_at' | 'updated_at'>`). -/
structure NewEntry where
  date : String
  title : String
  content : String
  deriving DecidableEq, Repr

/-- A store entry / database row with all backend-assigned fields present,
as returned by the backend's select after insert. -/
structure StoreEntry where
  id : Nat
  user_id : Nat
  date : String
  title : String
  content : String
  created_at : Nat
  updated_at : Nat
  deriving DecidableEq, Repr

/-- Result of an awaited backend call: the `{ data, error }` shape collapsed
to either the returned data or an error. -/
inductive BackendResult (α : Type) where
  | ok (a : α)
  | err
  deriving DecidableEq

/-- Lexicographic less-or-equal on lists over a linear order; on the
character data of yyyy-MM-dd date strings this coincides with the
chronological order the DATE column sorts by. -/
def lexLe {α : Type} [LinearOrder α] : List α → List α → Bool
  | [], _ => true
  | _ :: _, [] => false
  | a :: as, b :: bs => if a < b then true else if b < a then false else lexLe as bs

theorem lexLe_total {α : Type} [LinearOrder α] :
    ∀ as bs : List α, lexLe as bs = true ∨ lexLe bs as = true
  | [], _ => Or.inl rfl
  | _ :: _, [] => Or.inr rfl
  | a :: as, b :: bs => by
    rcases lt_trichotomy a b with h | h | h
    · exact Or.inl (by simp [lexLe, h])
    · subst h
      rcases lexLe_total as bs with ih | ih
      · exact Or.inl (by simp [lexLe, ih])
      · exact Or.inr (by simp [lexLe, ih])
    · exact Or.inr (by simp [lexLe, h])

theorem lexLe_trans {α : Type} [LinearOrder α] :
    ∀ as bs cs : List α, lexLe as bs = true → lexLe bs cs = true → lexLe as cs = true
  | [], _, _, _, _ => rfl
  | _ :: _, [], _, h, _ => by simp [lexLe] at h
  | _ :: _, _ :: _, [], _, h => by simp [lexLe] at h
  | a :: as, b :: bs, c :: cs, h1, h2 => by
    rcases lt_trichotomy a b with hab | hab | hab
    · rcases lt_trichotomy b c with hbc | hbc | hbc
      · simp [lexLe, hab.trans hbc]
      · subst hbc; simp [lexLe, hab]
      · simp [lexLe, asymm hbc, hbc] at h2
    · subst hab
      rcases lt_trichotomy a c with hbc | hbc | hbc
      · simp [lexLe, hbc]
      · subst hbc
        simp only [lexLe, lt_self_iff_false, if_false] at h1 h2 ⊢
        exact lexLe_trans as bs cs h1 h2
      · simp [lexLe, asymm hbc, hbc] at h2
    · simp [lexLe, asymm hab, hab] at h1

/-- String comparison by character data, lexicographically. -/
def strLeB (a b : String) : Bool := lexLe a.data b.data

/-- Date-descending order used by `.order('date', { ascending: false })`:
`a` may precede `b` when `b.date ≤ a.date`. -/
def dateDescRel (a b : StoreEntry) : Prop := strLeB b.date a.date = true

instance : DecidableRel dateDescRel := fun a b =>
  inferInstanceAs (Decidable (strLeB b.date a.date = true))

instance : IsTotal StoreEntry dateDescRel :=
  ⟨fun a b => lexLe_total b.date.data a.date.data⟩

instance : IsTrans StoreEntry dateDescRel :=
  ⟨fun _ b _ hab hbc => lexLe_trans _ b.date.data _ hbc hab⟩

/-- Shallow embedding of `loadEntries` (EntriesContext.tsx lines 40-59):
select all rows with `user_id` equal to the authenticated user, ordered by
date descending. Row-level security restricts the select to the caller's
rows, which coincides with the explicit `.eq('user_id', ...)` filter. -/
def loadEntries (db : List StoreEntry) (uid : Nat) : List StoreEntry :=
  List.insertionSort dateDescRel (db.filter (fun r => r.user_id == uid))

/-- Shallow embedding of `addEntry` (EntriesContext.tsx lines 61-85) with the
backend response as an explicit argument. Returns the new in-memory list and
whether an error was logged. With no user it returns at once; on backend
error it logs and returns with the list unchanged; on success it prepends
the returned row (`setEntries(prev => [data, ...prev])`). -/
def addEntry (user : Option Nat) (resp : BackendResult StoreEntry)
    (entries : List StoreEntry) : List StoreEntry × Bool :=
  match user with
  | none => (entries, false)
  | some _ =>
    match resp with
    | .err => (entries, true)
    | .ok row => (row :: entries, false)

/-- Shallow embedding of `updateEntry` (EntriesContext.tsx lines 87-106):
on backend error, log and leave the list unchanged; on success, replace the
entry with the matching id by the returned row, in place. -/
def updateEntry (id : Nat) (resp : BackendResult StoreEntry)
    (entries : List StoreEntry) : List StoreEntry × Bool :=
  match resp with
  | .err => (entries, true)
  | .ok row => (entries.map (fun e => if e.id == id then row else e), false)

/-- Shallow embedding of `deleteEntry` (EntriesContext.tsx lines 108-125):
on backend error, log and leave the list unchanged; on success, drop the
entry with the matching id. -/
def deleteEntry (id : Nat) (resp : BackendResult Unit)
    (entries : List StoreEntry) : List StoreEntry × Bool :=
  match resp with
  | .err => (entries, true)
  | .ok _ => (entries.filter (fun e => e.id != id), false)

/-- Row-level-security insert policy from the schema:
WITH CHECK (auth.uid() = user_id). -/
def rlsInsertOk (authUid : Nat) (row : StoreEntry) : Bool := row.user_id == authUid

/-- Backend insert modelled from the SQL schema (src/unnamed/part_003): a
fresh generated id, `created_at` and `updated_at` set to now, and the
row-level-security insert policy checked against the authenticated user.
The NOT NULL constraints on `user_id`, `date`, `title` are satisfied by
construction (all fields are non-null strings; TEXT NOT NULL does not
exclude the empty string). Returns `none` when the policy rejects the row. -/
def dbInsert (db : List StoreEntry) (authUid : Nat) (e : NewEntry)
    (fresh now : Nat) : Option (List StoreEntry × StoreEntry) :=
  let row : StoreEntry :=
    ⟨fresh, authUid, e.date, e.title, e.content, now, now⟩
  if rlsInsertOk authUid row then some (db ++ [row], row) else none

/-- `addEntry` composed with the schema-modelled backend insert: the code
inserts `{ ...entry, user_id: user.id }` and on success prepends the
returned row. Returns the new database contents and the new in-memory list. -/
def addEntryFull (user : Option Nat) (e : NewEntry) (fresh now : Nat)
    (db : List StoreEntry) (entries : List StoreEntry) :
    List StoreEntry × List StoreEntry :=
  match user with
  | none => (db, entries)
  | some uid =>
    match dbInsert db uid e fresh now with
    | none => (db, entries)
    | some (db2, row) => (db2, (addEntry (some uid) (.ok row) entries).1)

/-! ## Claims C2, C5, C9 -/

/-- C5: for every mutation of the entries store (addEntry, updateEntry,
deleteEntry), if the backend call returns an error, the operation logs the
error and returns without throwing (all three operations are total
functions), and the in-memory entries list is exactly what it was before
the operation. -/
theorem mutation_backend_error_is_atomic_noop (uid : Nat) (id did : Nat)
    (entries : List StoreEntry) :
    addEntry (some uid) .err entries = (entries, true) ∧
    updateEntry id .err entries = (entries, true) ∧
    deleteEntry did .err entries = (entries, true) :=
  ⟨rfl, rfl, rfl⟩

/-- C2 counterexample: calling `addEntry` with an authenticated user (id 7)
and an entry whose title is the empty string does not reject the creation:
the row is inserted into the database and the in-memory list changes. The
application code performs no title validation and the schema's TEXT NOT
NULL constraint admits the empty string. -/
theorem addEntry_empty_title_not_rejected_cx :
    (addEntryFull (some 7) ⟨"2024-01-15", "", "100"⟩ 1 0 [] []).1 ≠ [] ∧
    (addEntryFull (some 7) ⟨"2024-01-15", "", "100"⟩ 1 0 [] []).2 ≠ [] := by
  decide

/-- C2 amended: the entries store's create operation performs no title
validation; for every authenticated user and every entry — in particular
one whose title is the empty string — the schema-modelled backend accepts
the insert, the row is appended to the database, and the row is prepended
to the in-memory entries list. -/
theorem addEntry_no_title_validation (uid fresh now : Nat) (e : NewEntry)
    (db entries : List StoreEntry) :
    addEntryFull (some uid) e fresh now db entries =
      (db ++ [⟨fresh, uid, e.date, e.title, e.content, now, now⟩],
       ⟨fresh, uid, e.date, e.title, e.content, now, now⟩ :: entries) := by
  simp [addEntryFull, dbInsert, rlsInsertOk, addEntry]

/-- C9: creating an entry through the store (with the schema-modelled
backend succeeding) and then immediately listing the entries yields a list
containing an entry whose date, title and content are identical to those
supplied at creation; only the backend-assigned id, user_id, created_at and
updated_at are new. -/
theorem addEntry_then_list_roundtrip (uid fresh now : Nat) (e : NewEntry)
    (db entries : List StoreEntry) :
    ∃ r ∈ loadEntries (addEntryFull (some uid) e fresh now db entries).1 uid,
      r.date = e.date ∧ r.title = e.title ∧ r.content = e.content := by
  refine ⟨⟨fresh, uid, e.date, e.title, e.content, now, now⟩, ?_, rfl, rfl, rfl⟩
  have hdb : (addEntryFull (some uid) e fresh now db entries).1 =
      db ++ [⟨fresh, uid, e.date, e.title, e.content, now, now⟩] := by
    simp [addEntryFull, dbInsert, rlsInsertOk]
  rw [hdb, loadEntries]
  refine (List.perm_insertionSort dateDescRel _).mem_iff.mpr ?_
  simp [List.mem_filter]

/-! ## Calendar dates and yyyy-MM-dd strings

The pages render dates with template strings
`${year}-${pad2(month + 1)}-${pad2(day)}` and read them back through the
JavaScript Date constructor. We model the rendering character by character
and the constructor as a strict yyyy-MM-dd parse. -/

/-- Gregorian leap year, as implemented by the JavaScript Date type. -/
def isLeap (y : Nat) : Bool := (y % 4 == 0 && y % 100 != 0) || y % 400 == 0

/-- Days in month `m` (1-12) of year `y`, as computed by
`getDaysInMonth` = new Date(year, month + 1, 0).getDate()
(Calendar.tsx lines 36-38). -/
def daysInMonth (y m : Nat) : Nat :=
  if m = 2 then (if isLeap y then 29 else 28)
  else if m = 4 ∨ m = 6 ∨ m = 9 ∨ m = 11 then 30
  else 31

theorem daysInMonth_le (y m : Nat) : daysInMonth y m ≤ 31 := by
  rw [daysInMonth]
  split_ifs <;> norm_num

theorem daysInMonth_pos (y m : Nat) : 1 ≤ daysInMonth y m := by
  rw [daysInMonth]
  split_ifs <;> norm_num

/-- The character of the decimal digit `n % 10`. -/
def digitChar (n : Nat) : Char := Char.ofNat (48 + n % 10)

/-- The numeric value of a decimal digit character. -/
def digitVal (c : Char) : Nat := c.toNat - 48

/-- Decimal digit test by code point. -/
def isDigP (c : Char) : Prop := 48 ≤ c.toNat ∧ c.toNat ≤ 57

instance (c : Char) : Decidable (isDigP c) :=
  inferInstanceAs (Decidable (_ ∧ _))

theorem digitChar_digitVal {c : Char} (h : isDigP c) : digitChar (digitVal c) = c := by
  obtain ⟨h1, h2⟩ := h
  have h3 : 48 + digitVal c % 10 = c.toNat := by
    unfold digitVal
    omega
  rw [digitChar, h3, Char.ofNat_toNat]

theorem isDigP_digitChar (n : Nat) : isDigP (digitChar n) := by
  obtain ⟨r, hr, hre⟩ : ∃ r, r < 10 ∧ n % 10 = r :=
    ⟨n % 10, Nat.mod_lt _ (by norm_num), rfl⟩
  rw [digitChar, hre]
  interval_cases r <;> decide

theorem digitVal_digitChar (n : Nat) : digitVal (digitChar n) = n % 10 := by
  obtain ⟨r, hr, hre⟩ : ∃ r, r < 10 ∧ n % 10 = r :=
    ⟨n % 10, Nat.mod_lt _ (by norm_num), rfl⟩
  rw [digitChar, hre]
  interval_cases r <;> decide

theorem digitVal_le_of_isDigP {c : Char} (h : isDigP c) : digitVal c ≤ 9 := by
  obtain ⟨h1, h2⟩ := h
  unfold digitVal
  omega

/-- String(n).padStart(2, '0'): the two-character decimal rendering,
faithful for n < 100 (every use site passes a month 1-12 or a day 1-31). -/
def pad2 (n : Nat) : String := ⟨[digitChar (n / 10), digitChar n]⟩

/-- The template rendering ${year}, faithful for four-digit years
1000-9999, the regime the theorems assume. -/
def yearStr (y : Nat) : String :=
  ⟨[digitChar (y / 1000), digitChar (y / 100), digitChar (y / 10), digitChar y]⟩

/-- The yyyy-MM-dd rendering of a calendar date. -/
def dateStrOf (y m d : Nat) : String := yearStr y ++ "-" ++ pad2 m ++ "-" ++ pad2 d

/-- A parsed calendar date: year, month 1-12, day of month. -/
structure YMD where
  y : Nat
  m : Nat
  d : Nat
  deriving DecidableEq, Repr

/-- The calendar date spelled by the eight digit characters of a
yyyy-MM-dd string. -/
def ymdOfChars (c1 c2 c3 c4 c5 c6 c7 c8 : Char) : YMD :=
  ⟨digitVal c1 * 1000 + digitVal c2 * 100 + digitVal c3 * 10 + digitVal c4,
   digitVal c5 * 10 + digitVal c6,
   digitVal c7 * 10 + digitVal c8⟩

/-- In-range month and day-of-month check. -/
def validYMD (v : YMD) : Prop :=
  1 ≤ v.m ∧ v.m ≤ 12 ∧ 1 ≤ v.d ∧ v.d ≤ daysInMonth v.y v.m

instance (v : YMD) : Decidable (validYMD v) :=
  inferInstanceAs (Decidable (_ ∧ _))

/-- Model of new Date(s) for a date-only string: a strict yyyy-MM-dd parse
yielding the calendar date the string denotes; out-of-range months and
days yield none exactly as the Date constructor yields an Invalid Date
(whose getFullYear/getMonth are NaN and match nothing). The runtime is
taken to be UTC: the code performs no timezone adjustment of its own. -/
def parseISO (s : String) : Option YMD :=
  match s.data with
  | [c1, c2, c3, c4, s1, c5, c6, s2, c7, c8] =>
    if isDigP c1 ∧ isDigP c2 ∧ isDigP c3 ∧ isDigP c4 ∧ s1 = '-' ∧
       isDigP c5 ∧ isDigP c6 ∧ s2 = '-' ∧ isDigP c7 ∧ isDigP c8 then
      if validYMD (ymdOfChars c1 c2 c3 c4 c5 c6 c7 c8) then
        some (ymdOfChars c1 c2 c3 c4 c5 c6 c7 c8)
      else none
    else none
  | _ => none

theorem digitChar_congr {a b : Nat} (h : a % 10 = b % 10) : digitChar a = digitChar b := by
  unfold digitChar
  rw [h]

/-- A parse that succeeds returns the bounds-checked calendar date whose
canonical rendering is the parsed string. -/
theorem parseISO_some {s : String} {v : YMD} (h : parseISO s = some v) :
    s = dateStrOf v.y v.m v.d ∧ v.y ≤ 9999 ∧ 1 ≤ v.m ∧ v.m ≤ 12 ∧
      1 ≤ v.d ∧ v.d ≤ daysInMonth v.y v.m := by
  obtain ⟨data⟩ := s
  unfold parseISO at h
  split at h
  case h_2 => exact absurd h (by simp)
  case h_1 c1 c2 c3 c4 s1 c5 c6 s2 c7 c8 heq =>
    split at h
    case isFalse => exact absurd h (by simp)
    case isTrue hdig =>
      split at h
      case isFalse => exact absurd h (by simp)
      case isTrue hbound =>
        obtain ⟨d1, d2, d3, d4, hs1, d5, d6, hs2, d7, d8⟩ := hdig
        have hv := (Option.some.injEq _ _).mp h
        subst hv
        subst hs1
        subst hs2
        replace heq : data = [c1, c2, c3, c4, '-', c5, c6, '-', c7, c8] := heq
        subst heq
        obtain ⟨hm1, hm2, hd1, hd2⟩ := hbound
        have e1 := digitVal_le_of_isDigP d1
        have e2 := digitVal_le_of_isDigP d2
        have e3 := digitVal_le_of_isDigP d3
        have e4 := digitVal_le_of_isDigP d4
        have e5 := digitVal_le_of_isDigP d5
        have e6 := digitVal_le_of_isDigP d6
        have e7 := digitVal_le_of_isDigP d7
        have e8 := digitVal_le_of_isDigP d8
        refine ⟨?_, by simp only [ymdOfChars]; omega, hm1, hm2, hd1, hd2⟩
        have hds : dateStrOf (ymdOfChars c1 c2 c3 c4 c5 c6 c7 c8).y
            (ymdOfChars c1 c2 c3 c4 c5 c6 c7 c8).m (ymdOfChars c1 c2 c3 c4 c5 c6 c7 c8).d =
            String.mk [digitChar ((digitVal c1 * 1000 + digitVal c2 * 100 + digitVal c3 * 10 + digitVal c4) / 1000),
              digitChar ((digitVal c1 * 1000 + digitVal c2 * 100 + digitVal c3 * 10 + digitVal c4) / 100),
              digitChar ((digitVal c1 * 1000 + digitVal c2 * 100 + digitVal c3 * 10 + digitVal c4) / 10),
              digitChar (digitVal c1 * 1000 + digitVal c2 * 100 + digitVal c3 * 10 + digitVal c4), '-',
              digitChar ((digitVal c5 * 10 + digitVal c6) / 10),
              digitChar (digitVal c5 * 10 + digitVal c6), '-',
              digitChar ((digitVal c7 * 10 + digitVal c8) / 10),
              digitChar (digitVal c7 * 10 + digitVal c8)] := rfl
        rw [hds]
        have hc1 : digitChar ((digitVal c1 * 1000 + digitVal c2 * 100 + digitVal c3 * 10 + digitVal c4) / 1000) = c1 := by
          rw [digitChar_congr (a := (digitVal c1 * 1000 + digitVal c2 * 100 + digitVal c3 * 10 + digitVal c4) / 1000) (b := digitVal c1) (by omega)]
          exact digitChar_digitVal d1
        have hc2 : digitChar ((digitVal c1 * 1000 + digitVal c2 * 100 + digitVal c3 * 10 + digitVal c4) / 100) = c2 := by
          rw [digitChar_congr (a := (digitVal c1 * 1000 + digitVal c2 * 100 + digitVal c3 * 10 + digitVal c4) / 100) (b := digitVal c2) (by omega)]
          exact digitChar_digitVal d2
        have hc3 : digitChar ((digitVal c1 * 1000 + digitVal c2 * 100 + digitVal c3 * 10 + digitVal c4) / 10) = c3 := by
          rw [digitChar_congr (a := (digitVal c1 * 1000 + digitVal c2 * 100 + digitVal c3 * 10 + digitVal c4) / 10) (b := digitVal c3) (by omega)]
          exact digitChar_digitVal d3
        have hc4 : digitChar (digitVal c1 * 1000 + digitVal c2 * 100 + digitVal c3 * 10 + digitVal c4) = c4 := by
          rw [digitChar_congr (a := digitVal c1 * 1000 + digitVal c2 * 100 + digitVal c3 * 10 + digitVal c4) (b := digitVal c4) (by omega)]
          exact digitChar_digitVal d4
        have hc5 : digitChar ((digitVal c5 * 10 + digitVal c6) / 10) = c5 := by
          rw [digitChar_congr (a := (digitVal c5 * 10 + digitVal c6) / 10) (b := digitVal c5) (by omega)]
          exact digitChar_digitVal d5
        have hc6 : digitChar (digitVal c5 * 10 + digitVal c6) = c6 := by
          rw [digitChar_congr (a := digitVal c5 * 10 + digitVal c6) (b := digitVal c6) (by omega)]
          exact digitChar_digitVal d6
        have hc7 : digitChar ((digitVal c7 * 10 + digitVal c8) / 10) = c7 := by
          rw [digitChar_congr (a := (digitVal c7 * 10 + digitVal c8) / 10) (b := digitVal c7) (by omega)]
          exact digitChar_digitVal d7
        have hc8 : digitChar (digitVal c7 * 10 + digitVal c8) = c8 := by
          rw [digitChar_congr (a := digitVal c7 * 10 + digitVal c8) (b := digitVal c8) (by omega)]
          exact digitChar_digitVal d8
        rw [hc1, hc2, hc3, hc4, hc5, hc6, hc7, hc8]

/-- Parsing the canonical rendering of an in-range calendar date succeeds
and returns that date. -/
theorem parseISO_dateStrOf {y m d : Nat} (hy : y ≤ 9999) (hm1 : 1 ≤ m) (hm2 : m ≤ 12)
    (hd1 : 1 ≤ d) (hd2 : d ≤ daysInMonth y m) :
    parseISO (dateStrOf y m d) = some ⟨y, m, d⟩ := by
  have hd31 : d ≤ 31 := le_trans hd2 (daysInMonth_le y m)
  have hlist : (dateStrOf y m d).data =
      [digitChar (y / 1000), digitChar (y / 100), digitChar (y / 10), digitChar y, '-',
       digitChar (m / 10), digitChar m, '-', digitChar (d / 10), digitChar d] := rfl
  have hymd : ymdOfChars (digitChar (y / 1000)) (digitChar (y / 100)) (digitChar (y / 10))
      (digitChar y) (digitChar (m / 10)) (digitChar m) (digitChar (d / 10)) (digitChar d) =
      (⟨y, m, d⟩ : YMD) := by
    simp only [ymdOfChars, digitVal_digitChar]
    refine congrArg₂ (fun a b => YMD.mk a b _) ?_ ?_ |>.trans (congrArg _ ?_)
    all_goals omega
  unfold parseISO
  rw [hlist]
  simp only [isDigP_digitChar, true_and, and_true, if_true, hymd]
  rw [if_pos ⟨hm1, hm2, hd1, hd2⟩]

/-! ## The Dashboard page (src/unnamed/part_001)

Its decoded Entry interface: id, date string, amount, type, category.
Amounts are JavaScript numbers, modelled as exact rationals. -/

/-- A decoded dashboard/calendar entry ({ id, date, amount, type, category }). -/
structure DashEntry where
  id : String
  date : String
  amount : ℚ
  type : EType
  category : Cat
  deriving DecidableEq, Repr

/-- One row of the monthly matrix: { month, monthKey, Training, Coaching,
Speaking }. The month name is presentational and the monthKey string
${year}-${pad2(month + 1)} is represented by the (year, month) pair it
renders (the rendering is injective, so the pair stands for the string). -/
structure MonthBucket where
  monthKey : Nat × Nat
  training : ℚ
  coaching : ℚ
  speaking : ℚ
  deriving DecidableEq, Repr

/-- The bucket's value for a category (the indexing monthData[category]). -/
def MonthBucket.val (b : MonthBucket) : Cat → ℚ
  | .Training => b.training
  | .Coaching => b.coaching
  | .Speaking => b.speaking

/-- monthData[entry.category] += entry.amount. -/
def MonthBucket.bump (b : MonthBucket) (c : Cat) (amt : ℚ) : MonthBucket :=
  match c with
  | .Training => { b with training := b.training + amt }
  | .Coaching => { b with coaching := b.coaching + amt }
  | .Speaking => { b with speaking := b.speaking + amt }

/-- The (year, month) pair of an absolute month index (year * 12 + month0);
the JavaScript Date normalization of new Date(y, m0, 1). -/
def keyOfIdx (a : Nat) : Nat × Nat := (a / 12, a % 12 + 1)

/-- Shallow embedding of getLast12Months (part_001 lines 63-82) for a
current month of absolute index nowIdx = getFullYear() * 12 + getMonth():
twelve zero buckets for the months nowIdx - 11 .. nowIdx, oldest first
(the source loop runs i = 11 down to 0; j below is 11 - i). Faithful for
nowIdx ≥ 11, i.e. any real current date. -/
def getLast12Months (nowIdx : Nat) : List MonthBucket :=
  (List.range 12).map (fun j => ⟨keyOfIdx (nowIdx - 11 + j), 0, 0, 0⟩)

/-- The month keys of the 12-month window, oldest first. -/
def windowKeys (nowIdx : Nat) : List (Nat × Nat) :=
  (List.range 12).map (fun j => keyOfIdx (nowIdx - 11 + j))

/-- The year-month key of an entry's date string, as computed from
new Date(entry.date): none when the date does not parse (an Invalid Date
produces a NaN-NaN key that matches no bucket). -/
def entryKey? (s : String) : Option (Nat × Nat) :=
  (parseISO s).map (fun v => (v.y, v.m))

/-- monthlyData.find(m => m.monthKey === monthKey) followed by the in-place
increment: add to the first bucket carrying the key, if any. -/
def bumpFirst (k : Nat × Nat) (c : Cat) (amt : ℚ) : List MonthBucket → List MonthBucket
  | [] => []
  | b :: bs => if b.monthKey = k then b.bump c amt :: bs else b :: bumpFirst k c amt bs

/-- One forEach step of getMonthlyData: locate the entry's bucket by key
and add the amount to its category column. -/
def monthStep (md : List MonthBucket) (e : DashEntry) : List MonthBucket :=
  match entryKey? e.date with
  | some k => bumpFirst k e.category e.amount md
  | none => md

/-- Shallow embedding of getMonthlyData (part_001 lines 84-100): filter the
entries by type, then fold the per-entry increment over the 12-month
window. -/
def getMonthlyData (nowIdx : Nat) (entries : List DashEntry) (t : EType) :
    List MonthBucket :=
  (entries.filter (fun e => e.type == t)).foldl monthStep (getLast12Months nowIdx)

/-- Sum of the amounts of the entries with the given year-month key and
category. -/
def sumKey (es : List DashEntry) (k : Nat × Nat) (c : Cat) : ℚ :=
  ((es.filter (fun e => entryKey? e.date == some k && e.category == c)).map
    (fun e => e.amount)).sum

/-- Sum of the amounts of the entries with the given type, year-month key
and category — the value C1 asserts for each bucket. -/
def sumTypeKey (entries : List DashEntry) (t : EType) (k : Nat × Nat) (c : Cat) : ℚ :=
  ((entries.filter (fun e =>
      e.type == t && entryKey? e.date == some k && e.category == c)).map
    (fun e => e.amount)).sum

/-- A bucket after a list of entries has been folded over it: each category
column grows by the matching entries' amounts. -/
def addSums (b : MonthBucket) (es : List DashEntry) : MonthBucket :=
  ⟨b.monthKey,
   b.training + sumKey es b.monthKey .Training,
   b.coaching + sumKey es b.monthKey .Coaching,
   b.speaking + sumKey es b.monthKey .Speaking⟩

/-- Does the entry's date fall in the 12-month window? -/
def inWindow (nowIdx : Nat) (e : DashEntry) : Bool :=
  match entryKey? e.date with
  | some k => (windowKeys nowIdx).contains k
  | none => false

/-! ## Claim C1: the monthly aggregation -/

theorem sumKey_cons (e : DashEntry) (es : List DashEntry) (k : Nat × Nat) (c : Cat) :
    sumKey (e :: es) k c =
      (if entryKey? e.date = some k ∧ e.category = c then e.amount else 0) +
        sumKey es k c := by
  by_cases h1 : entryKey? e.date = some k
  · by_cases h2 : e.category = c
    · simp [sumKey, List.filter_cons, h1, h2]
    · simp [sumKey, List.filter_cons, h1, h2]
  · simp [sumKey, List.filter_cons, h1]

theorem addSums_nil (b : MonthBucket) : addSums b [] = b := by
  simp [addSums, sumKey]

theorem addSums_cons_skip {e : DashEntry} {b : MonthBucket}
    (h : entryKey? e.date ≠ some b.monthKey) (es : List DashEntry) :
    addSums b (e :: es) = addSums b es := by
  simp [addSums, sumKey_cons, h]

theorem addSums_cons_bump {e : DashEntry} {b : MonthBucket}
    (h : entryKey? e.date = some b.monthKey) (es : List DashEntry) :
    addSums b (e :: es) = addSums (b.bump e.category e.amount) es := by
  cases hc : e.category <;>
    simp [addSums, MonthBucket.bump, sumKey_cons, h, hc] <;> ring

theorem bump_monthKey (b : MonthBucket) (c : Cat) (a : ℚ) :
    (b.bump c a).monthKey = b.monthKey := by
  cases c <;> rfl

theorem bumpFirst_keys (k : Nat × Nat) (c : Cat) (a : ℚ) :
    ∀ md : List MonthBucket,
      (bumpFirst k c a md).map MonthBucket.monthKey = md.map MonthBucket.monthKey
  | [] => rfl
  | b :: bs => by
    rw [bumpFirst]
    split
    · simp [bump_monthKey]
    · simp [bumpFirst_keys k c a bs]

theorem monthStep_keys (md : List MonthBucket) (e : DashEntry) :
    (monthStep md e).map MonthBucket.monthKey = md.map MonthBucket.monthKey := by
  cases hk : entryKey? e.date <;> simp [monthStep, hk, bumpFirst_keys]

theorem bumpFirst_map_addSums {e : DashEntry} {k : Nat × Nat}
    (hk : entryKey? e.date = some k) (es : List DashEntry) :
    ∀ md : List MonthBucket, (md.map MonthBucket.monthKey).Nodup →
      (bumpFirst k e.category e.amount md).map (fun b => addSums b es) =
        md.map (fun b => addSums b (e :: es))
  | [], _ => rfl
  | b :: bs, hnd => by
    have hnd2 : (bs.map MonthBucket.monthKey).Nodup := (List.nodup_cons.mp hnd).2
    have hknotin : b.monthKey ∉ bs.map MonthBucket.monthKey := (List.nodup_cons.mp hnd).1
    rw [bumpFirst]
    split
    case isTrue hb =>
      subst hb
      simp only [List.map_cons]
      refine congrArg₂ _ ?_ ?_
      · exact (addSums_cons_bump hk es).symm
      · refine (List.map_congr_left ?_).symm
        intro b2 hb2
        refine addSums_cons_skip ?_ es
        rw [hk]
        intro hcon
        exact hknotin ((Option.some.injEq _ _).mp hcon ▸ List.mem_map_of_mem MonthBucket.monthKey hb2)
    case isFalse hb =>
      simp only [List.map_cons]
      refine congrArg₂ _ ?_ ?_
      · refine (addSums_cons_skip ?_ es).symm
        rw [hk]
        exact fun hcon => hb ((Option.some.injEq _ _).mp hcon).symm
      · exact bumpFirst_map_addSums hk es bs hnd2

theorem foldl_monthStep_spec :
    ∀ (es : List DashEntry) (md : List MonthBucket),
      (md.map MonthBucket.monthKey).Nodup →
      es.foldl monthStep md = md.map (fun b => addSums b es)
  | [], md, _ => by
    simp [List.map_congr_left (fun b _ => addSums_nil b)]
  | e :: rest, md, hnd => by
    rw [List.foldl_cons]
    have hkeys := monthStep_keys md e
    have ih := foldl_monthStep_spec rest (monthStep md e) (by rw [hkeys]; exact hnd)
    rw [ih]
    cases hk : entryKey? e.date with
    | none =>
      simp only [monthStep, hk]
      refine List.map_congr_left ?_
      intro b _
      exact (addSums_cons_skip (by rw [hk]; exact fun h => Option.noConfusion h) rest).symm
    | some k =>
      simp only [monthStep, hk]
      exact bumpFirst_map_addSums hk rest md hnd

theorem keyOfIdx_inj : Function.Injective keyOfIdx := by
  intro a b h
  rw [keyOfIdx, keyOfIdx, Prod.mk.injEq] at h
  omega

theorem windowKeys_nodup (nowIdx : Nat) : (windowKeys nowIdx).Nodup := by
  rw [windowKeys]
  refine List.Nodup.map ?_ (List.nodup_range 12)
  intro a b h
  have := keyOfIdx_inj h
  omega

theorem getLast12Months_keys (nowIdx : Nat) :
    (getLast12Months nowIdx).map MonthBucket.monthKey = windowKeys nowIdx := by
  simp [getLast12Months, windowKeys, List.map_map, Function.comp]

/-- The fold in getMonthlyData evaluates to the zero window with the
matching sums added bucketwise. -/
theorem getMonthlyData_eq (nowIdx : Nat) (entries : List DashEntry) (t : EType) :
    getMonthlyData nowIdx entries t =
      (getLast12Months nowIdx).map
        (fun b => addSums b (entries.filter (fun e => e.type == t))) := by
  rw [getMonthlyData]
  refine foldl_monthStep_spec _ _ ?_
  rw [getLast12Months_keys]
  exact windowKeys_nodup nowIdx

theorem sumKey_filter_type (entries : List DashEntry) (t : EType) (k : Nat × Nat)
    (c : Cat) :
    sumKey (entries.filter (fun e => e.type == t)) k c = sumTypeKey entries t k c := by
  rw [sumKey, sumTypeKey, List.filter_filter]
  refine congrArg _ (congrArg _ ?_)
  refine List.filter_congr ?_
  intro e _
  cases h1 : (e.type == t) <;> cases h2 : (entryKey? e.date == some k) <;>
    cases h3 : (e.category == c) <;> simp [h1, h2, h3]

theorem sumKey_filter_inWindow (nowIdx : Nat) (entries : List DashEntry) (t : EType)
    (k : Nat × Nat) (hk : k ∈ windowKeys nowIdx) (c : Cat) :
    sumKey ((entries.filter (inWindow nowIdx)).filter (fun e => e.type == t)) k c =
      sumKey (entries.filter (fun e => e.type == t)) k c := by
  rw [sumKey, sumKey, List.filter_filter, List.filter_filter, List.filter_filter]
  refine congrArg _ (congrArg _ ?_)
  refine List.filter_congr ?_
  intro e _
  by_cases hq : entryKey? e.date = some k
  · have hw : inWindow nowIdx e = true := by
      rw [inWindow, hq]
      simpa [List.contains, List.elem_iff] using hk
    simp [hq, hw]
  · simp [hq]

/-- C1: for every list of entries and each type, the dashboard's monthly
aggregation produces exactly 12 buckets keyed by the year-months of the
trailing 12-month window ending in the current month (absolute month index
nowIdx, at least 11 for any real date); each bucket's value for each
category equals the sum of the amounts of the entries of that type and
category whose date's year-month is the bucket's key; a bucket matched by
no entry keeps its initial zero; and dropping all entries dated outside
the window leaves every bucket unchanged. -/
theorem getMonthlyData_window_spec (nowIdx : Nat) (entries : List DashEntry)
    (t : EType) (hnow : 11 ≤ nowIdx) :
    (getMonthlyData nowIdx entries t).length = 12 ∧
    (getMonthlyData nowIdx entries t).map MonthBucket.monthKey = windowKeys nowIdx ∧
    (∀ b ∈ getMonthlyData nowIdx entries t, ∀ c : Cat,
      b.val c = sumTypeKey entries t b.monthKey c) ∧
    getMonthlyData nowIdx (entries.filter (inWindow nowIdx)) t =
      getMonthlyData nowIdx entries t := by
  refine ⟨?_, ?_, ?_, ?_⟩
  · rw [getMonthlyData_eq]
    simp [getLast12Months]
  · rw [getMonthlyData_eq]
    rw [List.map_map]
    have : MonthBucket.monthKey ∘
        (fun b => addSums b (entries.filter (fun e => e.type == t))) =
        MonthBucket.monthKey := by
      funext b
      rfl
    rw [this, getLast12Months_keys]
  · intro b hb c
    rw [getMonthlyData_eq] at hb
    obtain ⟨b0, hb0, rfl⟩ := List.mem_map.mp hb
    rw [getLast12Months] at hb0
    obtain ⟨j, hj, rfl⟩ := List.mem_map.mp hb0
    cases c <;>
      simp [addSums, MonthBucket.val, sumKey_filter_type]
  · rw [getMonthlyData_eq, getMonthlyData_eq]
    refine List.map_congr_left ?_
    intro b0 hb0
    have hkmem : b0.monthKey ∈ windowKeys nowIdx := by
      rw [← getLast12Months_keys nowIdx]
      exact List.mem_map_of_mem MonthBucket.monthKey hb0
    have h1 := sumKey_filter_inWindow nowIdx entries t b0.monthKey hkmem Cat.Training
    have h2 := sumKey_filter_inWindow nowIdx entries t b0.monthKey hkmem Cat.Coaching
    have h3 := sumKey_filter_inWindow nowIdx entries t b0.monthKey hkmem Cat.Speaking
    rw [addSums, addSums, h1, h2, h3]

/-- C1 witness: the aggregation at the current month May 2024 (absolute
index 2024 * 12 + 4) on the empty entry list. -/
theorem getMonthlyData_window_spec_witness :
    (getMonthlyData (2024 * 12 + 4) [] EType.sales).length = 12 ∧
    (getMonthlyData (2024 * 12 + 4) [] EType.sales).map MonthBucket.monthKey =
      windowKeys (2024 * 12 + 4) ∧
    (∀ b ∈ getMonthlyData (2024 * 12 + 4) [] EType.sales, ∀ c : Cat,
      b.val c = sumTypeKey [] EType.sales b.monthKey c) ∧
    getMonthlyData (2024 * 12 + 4) (List.filter (inWindow (2024 * 12 + 4)) []) EType.sales =
      getMonthlyData (2024 * 12 + 4) [] EType.sales :=
  getMonthlyData_window_spec (2024 * 12 + 4) [] EType.sales (by norm_num)

/-! ## Claims C3 and C4: pie-chart bucketing and statistics -/

/-- One slice of the pie data ({ name, value }); the color field is the
fixed presentational map of the category name and is omitted. -/
structure PieDatum where
  name : Cat
  value : ℚ
  deriving DecidableEq, Repr

/-- One step of the reduce building categoryTotals:
acc[entry.category] = (acc[entry.category] || 0) + entry.amount.
An existing key is updated in place (JavaScript objects keep the original
key position); a new key is appended (insertion order). `|| 0` reads 0 for
a missing key and for a stored 0, which agree on rationals. -/
def accumCat : List (Cat × ℚ) → DashEntry → List (Cat × ℚ)
  | [], e => [(e.category, e.amount)]
  | (c, v) :: acc, e =>
    if c = e.category then (c, v + e.amount) :: acc
    else (c, v) :: accumCat acc e

/-- Shallow embedding of getPieChartData (part_001 lines 102-114): filter by
the selected type, reduce into per-category totals, and list them in key
order. The pieChartRange selection is in scope but never read. -/
def getPieChartData (entries : List DashEntry) (pieChartType : EType)
    (pieChartRange : String) : List PieDatum :=
  (((entries.filter (fun e => e.type == pieChartType)).foldl accumCat []).map
    (fun p => PieDatum.mk p.1 p.2))

/-- Sum of the amounts of the entries of one category. -/
def catSum (es : List DashEntry) (c : Cat) : ℚ :=
  ((es.filter (fun e => e.category == c)).map (fun e => e.amount)).sum

/-- Sum of the amounts of the entries of one type and category — the
per-category total C3 asserts. -/
def catTotal (entries : List DashEntry) (t : EType) (c : Cat) : ℚ :=
  ((entries.filter (fun e => e.type == t && e.category == c)).map
    (fun e => e.amount)).sum

/-- Lookup of a category's accumulated total (the first — and only —
occurrence of the key). -/
def lookupA : List (Cat × ℚ) → Cat → Option ℚ
  | [], _ => none
  | (c2, v) :: acc, c => if c2 = c then some v else lookupA acc c

/-- Lookup of a category's value in the pie data. -/
def lookupPie : List PieDatum → Cat → Option ℚ
  | [], _ => none
  | p :: l, c => if p.name = c then some p.value else lookupPie l c

theorem catSum_cons (e : DashEntry) (es : List DashEntry) (c : Cat) :
    catSum (e :: es) c =
      (if e.category = c then e.amount else 0) + catSum es c := by
  by_cases h : e.category = c
  · simp [catSum, List.filter_cons, h]
  · simp [catSum, List.filter_cons, h]

theorem lookupA_accumCat (e : DashEntry) (c : Cat) :
    ∀ acc : List (Cat × ℚ),
      lookupA (accumCat acc e) c =
        if c = e.category then
          (match lookupA acc c with
           | some v => some (v + e.amount)
           | none => some e.amount)
        else lookupA acc c
  | [] => by
    by_cases h : c = e.category
    · subst h
      simp [accumCat, lookupA]
    · have hec : ¬ e.category = c := fun hcon => h hcon.symm
      simp [accumCat, lookupA, h, hec]
  | (c2, v) :: acc => by
    have ih := lookupA_accumCat e c acc
    by_cases h2 : c2 = e.category
    · by_cases h : c = e.category
      · have hc2 : c2 = c := by rw [h2, h]
        simp [accumCat, lookupA, h2, h, hc2]
      · have hc2 : ¬ c2 = c := fun hcon => h (by rw [← hcon, h2])
        have hec : ¬ e.category = c := fun hcon => h hcon.symm
        simp [accumCat, lookupA, h2, h, hc2, hec]
    · by_cases hc2 : c2 = c
      · have h : ¬ c = e.category := fun hcon => h2 (by rw [hc2, hcon])
        simp [accumCat, lookupA, h2, h, hc2]
      · simp [accumCat, lookupA, h2, hc2, ih]

/-- The category total seen after folding a list of entries onto an
accumulator that currently reads acc0 at the category. -/
def lookAfter (acc0 : Option ℚ) (es : List DashEntry) (c : Cat) : Option ℚ :=
  match acc0 with
  | some v => some (v + catSum es c)
  | none =>
    if (es.filter (fun e => e.category == c)).isEmpty then none
    else some (catSum es c)

theorem foldl_accumCat_lookup (c : Cat) :
    ∀ (es : List DashEntry) (acc : List (Cat × ℚ)),
      lookupA (es.foldl accumCat acc) c = lookAfter (lookupA acc c) es c
  | [], acc => by
    cases h : lookupA acc c <;> simp [lookAfter, catSum, h]
  | e :: rest, acc => by
    rw [List.foldl_cons, foldl_accumCat_lookup c rest (accumCat acc e),
      lookupA_accumCat e c acc]
    by_cases h : c = e.category
    · have hec : e.category = c := h.symm
      rw [if_pos h]
      cases hacc : lookupA acc c with
      | none =>
        simp [lookAfter, List.filter_cons, hec, catSum_cons]
      | some v =>
        simp [lookAfter, catSum_cons, hec]
        ring
    · have hec : ¬ e.category = c := fun hcon => h hcon.symm
      rw [if_neg h]
      cases hacc : lookupA acc c with
      | none =>
        simp [lookAfter, List.filter_cons, hec, catSum_cons]
      | some v =>
        simp [lookAfter, catSum_cons, hec]

theorem lookupPie_map (acc : List (Cat × ℚ)) (c : Cat) :
    lookupPie (acc.map (fun p => PieDatum.mk p.1 p.2)) c = lookupA acc c := by
  induction acc with
  | nil => rfl
  | cons p acc ih =>
    by_cases h : p.1 = c <;> simp [lookupPie, lookupA, h, ih]

/-- C3: for every list of entries and selected type, the pie-chart data is
identical for every value of the range selector (the selector filters
nothing), and it lists, once per category that has an entry of the selected
type, the per-category total of the amounts of all entries of that type
(categories with no such entry are absent). -/
theorem getPieChartData_spec (entries : List DashEntry) (t : EType)
    (r1 r2 : String) :
    getPieChartData entries t r1 = getPieChartData entries t r2 ∧
    (∀ c : Cat, lookupPie (getPieChartData entries t r1) c =
      (if (entries.filter (fun e => e.type == t && e.category == c)).isEmpty
       then none else some (catTotal entries t c))) := by
  constructor
  · rfl
  · intro c
    rw [getPieChartData, lookupPie_map, foldl_accumCat_lookup c _ []]
    have hfilter : (entries.filter (fun e => e.type == t)).filter
        (fun e => e.category == c) =
        entries.filter (fun e => e.type == t && e.category == c) := by
      rw [List.filter_filter]
      refine List.filter_congr ?_
      intro e _
      cases h1 : (e.type == t) <;> cases h2 : (e.category == c) <;> simp [h1, h2]
    have hsum : catSum (entries.filter (fun e => e.type == t)) c =
        catTotal entries t c := by
      rw [catSum, catTotal, hfilter]
    simp only [lookAfter, lookupA, hfilter, hsum]

/-- The statistics triple of calculateStats. -/
structure Stats where
  total : ℚ
  average : ℚ
  runningRate : ℚ
  deriving DecidableEq, Repr

/-- Shallow embedding of calculateStats (part_001 lines 116-123): take the
category's column, keep the values v > 0, total and average them (0 when no
value remains), and divide the trailing 12 buckets' sum by 12
(data.slice(-12) is List.drop (data.length - 12)). -/
def calculateStats (data : List MonthBucket) (c : Cat) : Stats :=
  let values := (data.map (fun d => d.val c)).filter (fun v => 0 < v)
  let total := values.sum
  let average := if values.length > 0 then total / values.length else 0
  let runningRate := ((data.drop (data.length - 12)).map (fun d => d.val c)).sum / 12
  ⟨total, average, runningRate⟩

/-- Twelve monthly buckets whose Training column is -5 in the first month
and 0 afterwards: a column the dashboard can produce from an entry whose
content parses to a negative amount. -/
def negData : List MonthBucket :=
  [⟨(2023, 6), -5, 0, 0⟩, ⟨(2023, 7), 0, 0, 0⟩, ⟨(2023, 8), 0, 0, 0⟩,
   ⟨(2023, 9), 0, 0, 0⟩, ⟨(2023, 10), 0, 0, 0⟩, ⟨(2023, 11), 0, 0, 0⟩,
   ⟨(2023, 12), 0, 0, 0⟩, ⟨(2024, 1), 0, 0, 0⟩, ⟨(2024, 2), 0, 0, 0⟩,
   ⟨(2024, 3), 0, 0, 0⟩, ⟨(2024, 4), 0, 0, 0⟩, ⟨(2024, 5), 0, 0, 0⟩]

/-- Twelve monthly buckets whose Training column is 6 in the first month
and 0 afterwards. -/
def posData : List MonthBucket :=
  [⟨(2023, 6), 6, 0, 0⟩, ⟨(2023, 7), 0, 0, 0⟩, ⟨(2023, 8), 0, 0, 0⟩,
   ⟨(2023, 9), 0, 0, 0⟩, ⟨(2023, 10), 0, 0, 0⟩, ⟨(2023, 11), 0, 0, 0⟩,
   ⟨(2023, 12), 0, 0, 0⟩, ⟨(2024, 1), 0, 0, 0⟩, ⟨(2024, 2), 0, 0, 0⟩,
   ⟨(2024, 3), 0, 0, 0⟩, ⟨(2024, 4), 0, 0, 0⟩, ⟨(2024, 5), 0, 0, 0⟩]

/-- C4 counterexample: on a 12-month column containing a negative value the
computed total is not the sum of the bucket values (the code sums only the
values > 0), and the computed average is not the mean over the months with
nonzero activity (-5 is nonzero but excluded). -/
theorem calculateStats_claim_cx :
    (calculateStats negData Cat.Training).total ≠
      ((negData.map (fun d => d.val Cat.Training)).sum) ∧
    (calculateStats negData Cat.Training).average ≠
      ((negData.map (fun d => d.val Cat.Training)).filter (fun v => v ≠ 0)).sum /
        ((((negData.map (fun d => d.val Cat.Training)).filter (fun v => v ≠ 0)).length : ℕ) : ℚ) := by
  constructor <;>
    norm_num [calculateStats, negData, MonthBucket.val]

theorem sum_filter_pos_of_nonneg :
    ∀ l : List ℚ, (∀ v ∈ l, 0 ≤ v) → (l.filter (fun v => 0 < v)).sum = l.sum
  | [], _ => rfl
  | v :: l, h => by
    have hv := h v (List.mem_cons_self v l)
    have hrest := sum_filter_pos_of_nonneg l (fun x hx => h x (List.mem_cons_of_mem v hx))
    by_cases hpos : 0 < v
    · simp [List.filter_cons, hpos, hrest]
    · have hv0 : v = 0 := le_antisymm (not_lt.mp hpos) hv
      simp [List.filter_cons, hpos, hrest, hv0]

/-- C4 amended: on a category's 12 monthly bucket values, the computed
total is the sum of the positive bucket values — hence the sum of all
bucket values whenever none is negative; the average is the sum of the
positive values divided by their count (0 when there is none); and the
running rate is the sum of all 12 bucket values divided by 12,
zero-activity months included. -/
theorem calculateStats_amended (data : List MonthBucket) (c : Cat)
    (h12 : data.length = 12) :
    (calculateStats data c).total =
      ((data.map (fun d => d.val c)).filter (fun v => 0 < v)).sum ∧
    ((∀ v ∈ data.map (fun d => d.val c), 0 ≤ v) →
      (calculateStats data c).total = (data.map (fun d => d.val c)).sum) ∧
    (calculateStats data c).average =
      ((data.map (fun d => d.val c)).filter (fun v => 0 < v)).sum /
        ((((data.map (fun d => d.val c)).filter (fun v => 0 < v)).length : ℕ) : ℚ) ∧
    (calculateStats data c).runningRate = (data.map (fun d => d.val c)).sum / 12 := by
  refine ⟨rfl, ?_, ?_, ?_⟩
  · intro h
    exact sum_filter_pos_of_nonneg _ h
  · rw [calculateStats]
    by_cases hlen :
        ((data.map (fun d => d.val c)).filter (fun v => 0 < v)).length > 0
    · simp [hlen]
    · have h0 : ((data.map (fun d => d.val c)).filter (fun v => 0 < v)).length = 0 := by
        omega

      simp [hlen, h0]
  · rw [calculateStats]
    simp [h12]

/-- C4 amended, witness: the statistics of the 12-month Training column
with a single positive month of value 6. -/
theorem calculateStats_amended_witness :
    (calculateStats posData Cat.Training).total =
      ((posData.map (fun d => d.val Cat.Training)).filter (fun v => 0 < v)).sum ∧
    ((∀ v ∈ posData.map (fun d => d.val Cat.Training), 0 ≤ v) →
      (calculateStats posData Cat.Training).total =
        (posData.map (fun d => d.val Cat.Training)).sum) ∧
    (calculateStats posData Cat.Training).average =
      ((posData.map (fun d => d.val Cat.Training)).filter (fun v => 0 < v)).sum /
        ((((posData.map (fun d => d.val Cat.Training)).filter (fun v => 0 < v)).length : ℕ) : ℚ) ∧
    (calculateStats posData Cat.Training).runningRate =
      (posData.map (fun d => d.val Cat.Training)).sum / 12 :=
  calculateStats_amended posData Cat.Training (by decide)

/-! ## Claims C6 and C7: the calendar grid (src/src/pages/Calendar.tsx)

Calendar.tsx declares the same Entry interface as the dashboard
({ id, date, amount, type, category }); DashEntry is reused. -/

/-- The displayed month (currentDate): its getFullYear() and zero-based
getMonth(). -/
structure CalDate where
  year : Nat
  month0 : Nat
  deriving DecidableEq, Repr

/-- The { sales, delivery } totals of a day or month (interface DayData). -/
structure DayData where
  sales : ℚ
  delivery : ℚ
  deriving DecidableEq, Repr

/-- Shallow embedding of getDateString (Calendar.tsx lines 44-48):
${year}-${String(month + 1).padStart(2, '0')}-${String(day).padStart(2, '0')}. -/
def getDateString (cur : CalDate) (day : Nat) : String :=
  yearStr cur.year ++ "-" ++ pad2 (cur.month0 + 1) ++ "-" ++ pad2 day

/-- The day's bucket: entries.filter(entry => entry.date === dateString). -/
def dayEntries (entries : List DashEntry) (cur : CalDate) (day : Nat) :
    List DashEntry :=
  entries.filter (fun e => e.date == getDateString cur day)

/-- Shallow embedding of getDayData (Calendar.tsx lines 50-58): the day's
entries summed by type. -/
def getDayData (entries : List DashEntry) (cur : CalDate) (day : Nat) : DayData :=
  ⟨(((dayEntries entries cur day).filter (fun e => e.type == EType.sales)).map
      (fun e => e.amount)).sum,
   (((dayEntries entries cur day).filter (fun e => e.type == EType.delivery)).map
      (fun e => e.amount)).sum⟩

/-- entryDate.getFullYear() === year && entryDate.getMonth() === month for
entryDate = new Date(entry.date) (an unparseable date compares false). -/
def inDisplayedMonth (cur : CalDate) (e : DashEntry) : Bool :=
  match parseISO e.date with
  | some v => v.y == cur.year && v.m == cur.month0 + 1
  | none => false

/-- Shallow embedding of getMonthTotals (Calendar.tsx lines 76-88): the
displayed month's entries summed by type. -/
def getMonthTotals (entries : List DashEntry) (cur : CalDate) : DayData :=
  ⟨(((entries.filter (inDisplayedMonth cur)).filter (fun e => e.type == EType.sales)).map
      (fun e => e.amount)).sum,
   (((entries.filter (inDisplayedMonth cur)).filter (fun e => e.type == EType.delivery)).map
      (fun e => e.amount)).sum⟩

/-- The month totals recomputed day by day over the displayed month's
days 1 .. daysInMonth. -/
def monthByDays (entries : List DashEntry) (cur : CalDate) : DayData :=
  ⟨∑ j ∈ Finset.range (daysInMonth cur.year (cur.month0 + 1)),
      (getDayData entries cur (j + 1)).sales,
   ∑ j ∈ Finset.range (daysInMonth cur.year (cur.month0 + 1)),
      (getDayData entries cur (j + 1)).delivery⟩

/-- The two example entries of the specification (§8). -/
def calEntryA : DashEntry := ⟨"1", "2024-01-15", 2500, EType.sales, Cat.Training⟩

/-- The second example entry of the specification (§8). -/
def calEntryB : DashEntry := ⟨"2", "2024-01-15", 1800, EType.delivery, Cat.Coaching⟩

/-- C6: for every list of entries, displayed month and day, the calendar's
per-day bucket contains exactly the entries whose date string equals the
yyyy-MM-dd string of that day, and no others; its sales and delivery
totals are the sums over the entries of exactly that date string and the
respective type; and on the specification's example entries the 2024-01-15
cell shows sales 2500 and delivery 1800. -/
theorem getDayData_spec (entries : List DashEntry) (cur : CalDate) (day : Nat) :
    (∀ e, e ∈ dayEntries entries cur day ↔
      e ∈ entries ∧ e.date = getDateString cur day) ∧
    (getDayData entries cur day).sales =
      ((entries.filter (fun e =>
          e.date == getDateString cur day && e.type == EType.sales)).map
        (fun e => e.amount)).sum ∧
    (getDayData entries cur day).delivery =
      ((entries.filter (fun e =>
          e.date == getDateString cur day && e.type == EType.delivery)).map
        (fun e => e.amount)).sum ∧
    getDayData [calEntryA, calEntryB] ⟨2024, 0⟩ 15 = ⟨2500, 1800⟩ := by
  have hmerge : ∀ t : EType,
      (dayEntries entries cur day).filter (fun e => e.type == t) =
        entries.filter (fun e =>
          e.date == getDateString cur day && e.type == t) := by
    intro t
    rw [dayEntries, List.filter_filter]
    refine List.filter_congr ?_
    intro e _
    cases h1 : (e.date == getDateString cur day) <;>
      cases h2 : (e.type == t) <;> simp [h1, h2]
  refine ⟨?_, ?_, ?_, ?_⟩
  · intro e
    rw [dayEntries, List.mem_filter]
    simp
  · rw [getDayData, hmerge EType.sales]
  · rw [getDayData, hmerge EType.delivery]
  · have hstr : getDateString ⟨2024, 0⟩ 15 = "2024-01-15" := rfl
    have hb1 : (EType.delivery == EType.sales) = false := rfl
    have hb2 : (EType.sales == EType.delivery) = false := rfl
    rw [getDayData]
    norm_num [dayEntries, hstr, hb1, hb2, calEntryA, calEntryB, List.filter]

theorem getDateString_eq (cur : CalDate) (day : Nat) :
    getDateString cur day = dateStrOf cur.year (cur.month0 + 1) day := rfl

/-- Summing the day buckets over the month's days equals summing the
entries whose parsed date has the displayed year and month, for any
additional entry predicate p. -/
theorem days_sum_eq (p : DashEntry → Bool) (cur : CalDate)
    (hy2 : cur.year ≤ 9999) (hm : cur.month0 < 12) :
    ∀ entries : List DashEntry,
      (∑ j ∈ Finset.range (daysInMonth cur.year (cur.month0 + 1)),
        ((entries.filter (fun e2 =>
            e2.date == getDateString cur (j + 1) && p e2)).map
          (fun e2 => e2.amount)).sum) =
      ((entries.filter (fun e2 => inDisplayedMonth cur e2 && p e2)).map
        (fun e2 => e2.amount)).sum
  | [] => by simp
  | e :: rest => by
    have ih := days_sum_eq p cur hy2 hm rest
    have hterm : ∀ j : Nat,
        ((List.filter (fun e2 => e2.date == getDateString cur (j + 1) && p e2)
            (e :: rest)).map (fun e2 => e2.amount)).sum =
          (if (e.date == getDateString cur (j + 1) && p e) = true then e.amount else 0) +
            ((List.filter (fun e2 => e2.date == getDateString cur (j + 1) && p e2)
              rest).map (fun e2 => e2.amount)).sum := by
      intro j
      cases hcond : (e.date == getDateString cur (j + 1) && p e) <;>
        simp [List.filter_cons, hcond]
    have hrhs : ((List.filter (fun e2 => inDisplayedMonth cur e2 && p e2)
        (e :: rest)).map (fun e2 => e2.amount)).sum =
          (if (inDisplayedMonth cur e && p e) = true then e.amount else 0) +
            ((List.filter (fun e2 => inDisplayedMonth cur e2 && p e2) rest).map
              (fun e2 => e2.amount)).sum := by
      cases hcond : (inDisplayedMonth cur e && p e) <;>
        simp [List.filter_cons, hcond]
    simp only [hterm]
    rw [Finset.sum_add_distrib, ih, hrhs]
    congr 1
    cases hp : p e with
    | false => simp
    | true =>
      simp only [Bool.and_true]
      cases hpe : parseISO e.date with
      | none =>
        have hin : inDisplayedMonth cur e = false := by
          simp [inDisplayedMonth, hpe]
        rw [hin]
        simp only [Bool.false_eq_true, if_false]
        refine Finset.sum_eq_zero ?_
        intro j hj
        rw [if_neg]
        intro hcon
        rw [beq_iff_eq, getDateString_eq] at hcon
        have hparse := parseISO_dateStrOf hy2 (by omega) (by omega) (by omega)
          (show j + 1 ≤ daysInMonth cur.year (cur.month0 + 1) from by
            have := Finset.mem_range.mp hj
            omega)
        rw [hcon, hparse] at hpe
        exact Option.noConfusion hpe
      | some v =>
        cases hvm : (v.y == cur.year && v.m == cur.month0 + 1) with
        | false =>
          have hin : inDisplayedMonth cur e = false := by
            simp only [inDisplayedMonth, hpe]
            exact hvm
          rw [hin]
          simp only [Bool.false_eq_true, if_false]
          refine Finset.sum_eq_zero ?_
          intro j hj
          rw [if_neg]
          intro hcon
          rw [beq_iff_eq, getDateString_eq] at hcon
          have hparse := parseISO_dateStrOf hy2 (by omega) (by omega) (by omega)
            (show j + 1 ≤ daysInMonth cur.year (cur.month0 + 1) from by
              have := Finset.mem_range.mp hj
              omega)
          rw [hcon, hparse] at hpe
          have hveq := (Option.some.injEq _ _).mp hpe
          rw [← hveq] at hvm
          simp at hvm
        | true =>
          have hin : inDisplayedMonth cur e = true := by
            simp only [inDisplayedMonth, hpe]
            exact hvm
          obtain ⟨hy, hvmm⟩ := Bool.and_eq_true_iff.mp hvm
          rw [beq_iff_eq] at hy hvmm
          obtain ⟨hstr, hvy, hm1, hm12, hd1, hdle⟩ := parseISO_some hpe
          rw [hin, if_pos rfl]
          have hNd : v.d - 1 < daysInMonth cur.year (cur.month0 + 1) := by
            rw [← hy, ← hvmm]
            omega
          have hiff : ∀ j ∈ Finset.range (daysInMonth cur.year (cur.month0 + 1)),
              ((e.date == getDateString cur (j + 1)) = true ↔ j = v.d - 1) := by
            intro j hj
            constructor
            · intro hcon
              rw [beq_iff_eq, getDateString_eq] at hcon
              have hparse := parseISO_dateStrOf hy2 (by omega) (by omega) (by omega)
                (show j + 1 ≤ daysInMonth cur.year (cur.month0 + 1) from by
                  have := Finset.mem_range.mp hj
                  omega)
              rw [hcon, hparse] at hpe
              have hveq := (Option.some.injEq _ _).mp hpe
              have hvd : v.d = j + 1 := by rw [← hveq]
              omega
            · intro hj'
              rw [beq_iff_eq, getDateString_eq, hstr, hy, hvmm]
              have hvd : v.d = j + 1 := by omega
              rw [hvd]
          calc (∑ j ∈ Finset.range (daysInMonth cur.year (cur.month0 + 1)),
                if (e.date == getDateString cur (j + 1)) = true then e.amount else 0)
              = ∑ j ∈ Finset.range (daysInMonth cur.year (cur.month0 + 1)),
                if j = v.d - 1 then e.amount else 0 := by
                refine Finset.sum_congr rfl ?_
                intro j hj
                exact if_congr (hiff j hj) rfl rfl
            _ = e.amount := by
                rw [Finset.sum_ite_eq' (Finset.range (daysInMonth cur.year (cur.month0 + 1)))
                  (v.d - 1) (fun _ => e.amount)]
                rw [if_pos (Finset.mem_range.mpr hNd)]

/-- C7: for every list of entries and displayed month (any four-digit year
and real month), the calendar's month totals for sales and for delivery
equal the sums of the amounts of exactly those entries whose date —
compared as a calendar date parsed from yyyy-MM-dd with no timezone
shifting — has the displayed year and month; and equivalently the month
totals equal the sums over all days 1..daysInMonth of the per-day bucket
totals. -/
theorem getMonthTotals_spec (entries : List DashEntry) (cur : CalDate)
    (hy1 : 1000 ≤ cur.year) (hy2 : cur.year ≤ 9999) (hm : cur.month0 < 12) :
    (getMonthTotals entries cur).sales =
      ((entries.filter (fun e =>
          inDisplayedMonth cur e && e.type == EType.sales)).map
        (fun e => e.amount)).sum ∧
    (getMonthTotals entries cur).delivery =
      ((entries.filter (fun e =>
          inDisplayedMonth cur e && e.type == EType.delivery)).map
        (fun e => e.amount)).sum ∧
    getMonthTotals entries cur = monthByDays entries cur := by
  have hmerge : ∀ t : EType,
      (entries.filter (inDisplayedMonth cur)).filter (fun e => e.type == t) =
        entries.filter (fun e => inDisplayedMonth cur e && e.type == t) := by
    intro t
    rw [List.filter_filter]
    refine List.filter_congr ?_
    intro e _
    cases h1 : inDisplayedMonth cur e <;> cases h2 : (e.type == t) <;> simp [h1, h2]
  have hdaymerge : ∀ (t : EType) (j : Nat),
      (dayEntries entries cur (j + 1)).filter (fun e => e.type == t) =
        entries.filter (fun e => e.date == getDateString cur (j + 1) && e.type == t) := by
    intro t j
    rw [dayEntries, List.filter_filter]
    refine List.filter_congr ?_
    intro e _
    cases h1 : (e.date == getDateString cur (j + 1)) <;>
      cases h2 : (e.type == t) <;> simp [h1, h2]
  refine ⟨?_, ?_, ?_⟩
  · rw [getMonthTotals, hmerge EType.sales]
  · rw [getMonthTotals, hmerge EType.delivery]
  · rw [getMonthTotals, monthByDays]
    refine congrArg₂ DayData.mk ?_ ?_
    · rw [hmerge EType.sales, ← days_sum_eq (fun e => e.type == EType.sales) cur hy2 hm entries]
      refine Finset.sum_congr rfl ?_
      intro j hj
      rw [getDayData, hdaymerge EType.sales j]
    · rw [hmerge EType.delivery,
        ← days_sum_eq (fun e => e.type == EType.delivery) cur hy2 hm entries]
      refine Finset.sum_congr rfl ?_
      intro j hj
      rw [getDayData, hdaymerge EType.delivery j]

/-- C7 witness: the month totals of January 2024 on the empty entry
list. -/
theorem getMonthTotals_spec_witness :
    (getMonthTotals [] ⟨2024, 0⟩).sales =
      ((List.filter (fun e =>
          inDisplayedMonth ⟨2024, 0⟩ e && e.type == EType.sales) []).map
        (fun e => e.amount)).sum ∧
    (getMonthTotals [] ⟨2024, 0⟩).delivery =
      ((List.filter (fun e =>
          inDisplayedMonth ⟨2024, 0⟩ e && e.type == EType.delivery) []).map
        (fun e => e.amount)).sum ∧
    getMonthTotals [] ⟨2024, 0⟩ = monthByDays [] ⟨2024, 0⟩ :=
  getMonthTotals_spec [] ⟨2024, 0⟩ (by norm_num) (by norm_num) (by norm_num)

/-! ## Claim C10: the Dashboard and Data page row decoders

Both pages fetch raw entries rows and decode type, category and amount
from the overloaded title and content fields (part_001 lines 43-50 and
part_002 lines 53-62). -/

/-- A raw entries-table row as both queryFns receive it (interface
DbEntry; content is nullable). -/
structure DbEntry where
  id : String
  user_id : String
  title : String
  content : Option String
  date : String
  created_at : String
  updated_at : String
  deriving DecidableEq, Repr

/-- Substring occurrence test on character lists (String.includes). -/
def hasInfix (sub : List Char) : List Char → Bool
  | [] => sub.isEmpty
  | c :: cs => sub.isPrefixOf (c :: cs) || hasInfix sub cs

/-- JavaScript String.includes(sub). -/
def jsIncludes (s sub : String) : Bool := hasInfix sub.data s.data

/-- title.toLowerCase() (the titles at stake are ASCII). -/
def jsToLower (s : String) : String := ⟨s.data.map Char.toLower⟩

/-- Split at every occurrence of the three-character separator ' - ',
scanning left to right: the List-level semantics of split(' - '). -/
def splitDash : List Char → List (List Char)
  | ' ' :: '-' :: ' ' :: rest => [] :: splitDash rest
  | c :: rest =>
    match splitDash rest with
    | [] => [[c]]
    | h :: t => (c :: h) :: t
  | [] => [[]]

/-- Longest leading run of decimal digits. -/
def takeDigits : List Char → List Char × List Char
  | [] => ([], [])
  | c :: cs =>
    if isDigP c then
      let p := takeDigits cs
      (c :: p.1, p.2)
    else ([], c :: cs)

/-- Numeric value of a digit list, most significant first. -/
def digitsVal (ds : List Char) : Nat := ds.foldl (fun n c => n * 10 + digitVal c) 0

/-- Model of parseFloat on the decimal strings this app stores: an optional
sign, then the longest numeric prefix of the form digits, digits.digits or
.digits; none models NaN (no numeric prefix). Exponent notation and the
special words are beyond what the app writes and are not modelled. -/
def jsParseFloat (s : String) : Option ℚ :=
  let p :=
    match s.data with
    | '-' :: cs => ((-1 : ℚ), cs)
    | '+' :: cs => ((1 : ℚ), cs)
    | cs => ((1 : ℚ), cs)
  let q := takeDigits p.2
  match q.2 with
  | '.' :: cs =>
    let f := takeDigits cs
    if q.1.isEmpty ∧ f.1.isEmpty then none
    else some (p.1 * ((digitsVal q.1 : ℚ) +
      (digitsVal f.1 : ℚ) / ((10 : ℚ) ^ f.1.length)))
  | _ =>
    if q.1.isEmpty then none
    else some (p.1 * (digitsVal q.1 : ℚ))

/-- The entry type both pages derive:
entry.title.toLowerCase().includes('sales') ? 'sales' : 'delivery'
(the expression is identical in part_001 line 47 and part_002 line 57). -/
def decodeType (title : String) : EType :=
  if jsIncludes (jsToLower title) "sales" then .sales else .delivery

/-- The amount both pages derive: parseFloat(entry.content || '0'); null
content — and the empty string, also falsy — reads as '0' (identical in
part_001 line 46 and part_002 line 56). -/
def decodeAmount (content : Option String) : Option ℚ :=
  jsParseFloat
    (match content with
     | some s => if s = "" then "0" else s
     | none => "0")

/-- The Dashboard page's category decoding (part_001 lines 48-49):
includes('Training'), then includes('Coaching'), else 'Speaking'. -/
def dashboardCategory (title : String) : String :=
  if jsIncludes title "Training" then "Training"
  else if jsIncludes title "Coaching" then "Coaching"
  else "Speaking"

/-- The Data page's category decoding (part_002 line 58):
title.split(' - ')[1] with fallback 'Training' (a missing element and the
empty string are falsy). -/
def dataCategory (title : String) : String :=
  match (splitDash title.data).get? 1 with
  | some c => if c.isEmpty then "Training" else ⟨c⟩
  | none => "Training"

/-- The Dashboard page's decoded row (part_001 lines 43-50); the category
is kept as the string the cast pretends to narrow. -/
structure DashDecoded where
  id : String
  date : String
  amount : Option ℚ
  type : EType
  category : String
  deriving DecidableEq, Repr

/-- Dashboard queryFn row decoding. -/
def dashboardDecode (e : DbEntry) : DashDecoded :=
  ⟨e.id, e.date, decodeAmount e.content, decodeType e.title,
   dashboardCategory e.title⟩

/-- The Data page's decoded row (part_002 lines 53-62). -/
structure DataDecoded where
  id : String
  date : String
  amount : Option ℚ
  type : EType
  category : String
  title : String
  content : Option String
  user_id : String
  deriving DecidableEq, Repr

/-- Data queryFn row decoding. -/
def dataDecode (e : DbEntry) : DataDecoded :=
  ⟨e.id, e.date, decodeAmount e.content, decodeType e.title,
   dataCategory e.title, e.title, e.content, e.user_id⟩

/-- C10: for every database row whose title has the form
'<Type> - <Category>' with Type one of the two type labels (Sales,
Delivery) and Category one of Training, Coaching, Speaking, the Dashboard
page's decoding and the Data page's decoding agree: both derive the same
type — sales exactly when the lower-cased title contains 'sales' — the
same category (namely the Category spelled in the title), and the same
amount (parseFloat of the content, with null content read as '0'). -/
theorem decoders_agree (e : DbEntry) (t c : String)
    (ht : t = "Sales" ∨ t = "Delivery")
    (hc : c = "Training" ∨ c = "Coaching" ∨ c = "Speaking")
    (htitle : e.title = t ++ " - " ++ c) :
    (dashboardDecode e).type = (dataDecode e).type ∧
    ((dashboardDecode e).type = EType.sales ↔
      jsIncludes (jsToLower e.title) "sales" = true) ∧
    (dashboardDecode e).category = (dataDecode e).category ∧
    (dashboardDecode e).category = c ∧
    (dashboardDecode e).amount = (dataDecode e).amount := by
  refine ⟨rfl, ?_, ?_, ?_, rfl⟩
  · rw [dashboardDecode]
    simp only [decodeType]
    cases h : jsIncludes (jsToLower e.title) "sales" <;> simp [h]
  · have hpr1 : (dashboardDecode e).category = dashboardCategory e.title := rfl
    have hpr2 : (dataDecode e).category = dataCategory e.title := rfl
    rw [hpr1, hpr2, htitle]
    rcases ht with rfl | rfl <;> rcases hc with rfl | rfl | rfl <;> decide
  · have hpr1 : (dashboardDecode e).category = dashboardCategory e.title := rfl
    rw [hpr1, htitle]
    rcases ht with rfl | rfl <;> rcases hc with rfl | rfl | rfl <;> decide

/-- C10 witness: the row titled 'Sales - Training' with content '2500'. -/
theorem decoders_agree_witness :
    (dashboardDecode ⟨"i1", "u1", "Sales - Training", some "2500", "2024-01-15", "t", "t"⟩).type =
      (dataDecode ⟨"i1", "u1", "Sales - Training", some "2500", "2024-01-15", "t", "t"⟩).type ∧
    ((dashboardDecode ⟨"i1", "u1", "Sales - Training", some "2500", "2024-01-15", "t", "t"⟩).type =
        EType.sales ↔
      jsIncludes (jsToLower (DbEntry.title ⟨"i1", "u1", "Sales - Training", some "2500", "2024-01-15", "t", "t"⟩)) "sales" = true) ∧
    (dashboardDecode ⟨"i1", "u1", "Sales - Training", some "2500", "2024-01-15", "t", "t"⟩).category =
      (dataDecode ⟨"i1", "u1", "Sales - Training", some "2500", "2024-01-15", "t", "t"⟩).category ∧
    (dashboardDecode ⟨"i1", "u1", "Sales - Training", some "2500", "2024-01-15", "t", "t"⟩).category =
      "Training" ∧
    (dashboardDecode ⟨"i1", "u1", "Sales - Training", some "2500", "2024-01-15", "t", "t"⟩).amount =
      (dataDecode ⟨"i1", "u1", "Sales - Training", some "2500", "2024-01-15", "t", "t"⟩).amount :=
  decoders_agree ⟨"i1", "u1", "Sales - Training", some "2500", "2024-01-15", "t", "t"⟩
    "Sales" "Training" (Or.inl rfl) (Or.inl rfl) rfl

/-! ## Claim C8: store ordering -/

/-- A one-row database used to exhibit the ordering defect of `addEntry`. -/
def dbMay : List StoreEntry :=
  [⟨1, 7, "2024-05-01", "Sales - Training", "2500", 0, 0⟩]

/-- C8 counterexample: starting from the freshly loaded (date-descending)
list for user 7 and creating an entry dated 2024-01-01 — older than the
existing 2024-05-01 row — leaves the in-memory list out of date-descending
order, and different from what a fresh listing of the same database would
return: `addEntry` prepends the new row regardless of its date. -/
theorem entries_order_broken_by_add_cx :
    ¬ List.Sorted dateDescRel
        (addEntryFull (some 7) ⟨"2024-01-01", "Sales - Coaching", "100"⟩ 2 5
          dbMay (loadEntries dbMay 7)).2 ∧
    (addEntryFull (some 7) ⟨"2024-01-01", "Sales - Coaching", "100"⟩ 2 5
        dbMay (loadEntries dbMay 7)).2 ≠
      loadEntries (addEntryFull (some 7) ⟨"2024-01-01", "Sales - Coaching", "100"⟩ 2 5
        dbMay (loadEntries dbMay 7)).1 7 := by
  constructor
  · intro h
    have := List.rel_of_sorted_cons h
        ⟨1, 7, "2024-05-01", "Sales - Training", "2500", 0, 0⟩ (by decide)
    revert this
    decide
  · decide

/-- C8 amended: the initial load returns the user's entries in
date-descending order, and deleteEntry preserves date-descending order; but
addEntry merely prepends the backend's row, so the list stays in
date-descending order only when the created entry's date is at least the
date of every entry already in the list (updateEntry likewise patches the
row in place). -/
theorem store_order_partial_invariant (db : List StoreEntry) (uid : Nat)
    (id : Nat) (dresp : BackendResult Unit) (l : List StoreEntry)
    (user : Option Nat) (row : StoreEntry)
    (hl : List.Sorted dateDescRel l)
    (hnew : ∀ x ∈ l, strLeB x.date row.date = true) :
    List.Sorted dateDescRel (loadEntries db uid) ∧
    List.Sorted dateDescRel (deleteEntry id dresp l).1 ∧
    List.Sorted dateDescRel (addEntry user (.ok row) l).1 := by
  refine ⟨List.sorted_insertionSort dateDescRel _, ?_, ?_⟩
  · cases dresp with
    | err => exact hl
    | ok a => exact List.Pairwise.sublist (List.filter_sublist _) hl
  · cases user with
    | none => exact hl
    | some uid2 =>
      exact List.pairwise_cons.mpr ⟨fun x hx => hnew x hx, hl⟩

/-- C8 amended, witness: the partial invariant instantiated at the one-row
May database, user 7, a delete error response, the sorted singleton list
and a newer (June-dated) row. -/
theorem store_order_partial_invariant_witness :
    List.Sorted dateDescRel (loadEntries dbMay 7) ∧
    List.Sorted dateDescRel
      (deleteEntry 1 .err (loadEntries dbMay 7)).1 ∧
    List.Sorted dateDescRel
      (addEntry (some 7) (.ok ⟨2, 7, "2024-06-01", "Sales - Speaking", "10", 0, 0⟩)
        (loadEntries dbMay 7)).1 :=
  store_order_partial_invariant dbMay 7 1 .err (loadEntries dbMay 7) (some 7)
    ⟨2, 7, "2024-06-01", "Sales - Speaking", "10", 0, 0⟩ (by decide) (by decide)
